import Mathlib

/-! Instruction analysis for ppc64le (`proc/disasm_ppc64le.go`).

A shallow embedding of the decode / normalise / classify / resolve pipeline and
of the prologue scanner, followed by theorems about them.

Conventions of the embedding:

* Go's `uint64` values are natural numbers, `int64` and `int` values are
  integers; every conversion and every arithmetic operation of the source is
  followed by the reduction the machine performs (`toUint64`, `toInt64`).
* A read that returns `(value, error)` returns an `Option`: `none` is a non-nil
  error. The decoder and the disassembly driver, whose error is passed on to
  the caller, return an `Except`.
* A nil pointer or nil interface is `none`.
* A run-time panic (nil dereference, index out of range) is `Outcome.panic`.
-/

namespace Proc

/-! ## Machine integers -/

/-- Conversion to `uint64`: reduction modulo `2^64`. -/
def toUint64 (x : Int) : Nat := (x % 2 ^ 64).toNat

/-- Conversion to `int64`: the two's complement representative in
`[-2^63, 2^63)`. -/
def toInt64 (x : Int) : Int := (x + 2 ^ 63) % 2 ^ 64 - 2 ^ 63

/-- Addition of two `int64` values, as the machine performs it. -/
def addInt64 (a b : Int) : Int := toInt64 (a + b)

/-- Multiplication of two `uint64` values, as the machine performs it. -/
def mulUint64 (a b : Nat) : Nat := (a * b) % 2 ^ 64

/-! ## Results of a Go function -/

/-- What a call of a Go function does: it returns a value or it panics. -/
inductive Outcome (α : Type) where
  | ret (a : α)
  | panic
  deriving DecidableEq, Repr

/-! ## Data model -/

/-- The opcodes of `power64asm` that the file names, and all the others. -/
inductive Op where
  | LD | ADDI | CMPLD | BLT | MFLR | BL | SC
  | other (code : Nat)
  deriving DecidableEq, Repr

/-- Modelled from the spec: the operand kinds of `power64asm.Arg`, whose type
declarations are not among the sources (spec section 3, `Operand`):
`Immediate(int64)`, `Register(index)`, `SpecialRegister(index)`,
`ConditionRegister(index)`, `MemoryRef`, `InstructionRelative(offset: int64)`,
`Label`, `Offset`. -/
inductive Arg where
  | Imm (v : Int)
  | Reg (r : Nat)
  | SpReg (r : Nat)
  | CondReg (r : Nat)
  | Mem (Segment : Nat) (Base : Nat) (Scale : Nat) (Index : Nat) (Disp : Int)
  | PCRel (rel : Int)
  | Label (v : Nat)
  | Offset (v : Int)
  deriving DecidableEq, Repr

/-- The decoded instruction `ArchInst` (`power64asm.Inst`): the fields the file
reads. An operand slot is an interface value: `none` is the nil interface. -/
structure ArchInst where
  Op : Op
  Args : List (Option Arg)
  Len : Int
  MemBytes : Int
  deriving DecidableEq, Repr

/-- The symbol `gosym.Func`: the fields the file reads. -/
structure Func where
  Name : String
  Entry : Nat
  End : Nat
  deriving DecidableEq, Repr

/-- A source location; `Fn` is a pointer and may be nil. -/
structure Location where
  PC : Nat
  File : String
  Line : Int
  Fn : Option Func
  deriving DecidableEq, Repr

/-- One entry of a disassembly; `DestLoc` and `Inst` are pointers and may be
nil. -/
structure AsmInstruction where
  Loc : Location
  DestLoc : Option Location
  Inst : Option ArchInst
  deriving DecidableEq, Repr

/-! ## Address normaliser -/

/-- The variable `maxInstructionLength`. -/
def maxInstructionLength : Nat := 15

/-- One iteration of the loop of `patchPCPCRel`: the new content of a slot. -/
def patchArg (pc : Nat) (len : Int) : Option Arg → Option Arg
  | some (Arg.PCRel rel) =>
      some (Arg.Imm (addInt64 (addInt64 (toInt64 pc) (toInt64 rel)) (toInt64 len)))
  | a => a

/-- The function `patchPCPCRel`: converts PC relative arguments to absolute
addresses, in every operand slot. -/
def patchPCPCRel (pc : Nat) (inst : ArchInst) : ArchInst :=
  { inst with Args := inst.Args.map (patchArg pc inst.Len) }

/-- The function `asmDecode`; the raw decoder `power64asm.Decode` (little
endian) is the parameter `Decode`. -/
def asmDecode (Decode : List Nat → Except String ArchInst) (mem : List Nat) (pc : Nat) :
    Except String ArchInst :=
  match Decode mem with
  | Except.error err => Except.error err
  | Except.ok inst => Except.ok (patchPCPCRel pc inst)

/-- The method `Size`. -/
def ArchInst.Size (inst : ArchInst) : Int := inst.Len

/-! ## Instruction classifier and text renderer -/

/-- The method `IsCall`: `inst.Inst.Op == power64asm.SC`; dereferencing a nil
`inst.Inst` panics. -/
def AsmInstruction.IsCall (inst : AsmInstruction) : Outcome Bool :=
  match inst.Inst with
  | none => Outcome.panic
  | some i => Outcome.ret (decide (i.Op = Op.SC))

/-- The method `Text`; the renderer `power64asm.GNUSyntax` is the parameter
`GNUSyntax`, and every flavour selects it. -/
def AsmInstruction.Text (GNUSyntax : ArchInst → String) (inst : AsmInstruction)
    (flavour : Nat) : Outcome String :=
  match inst.Inst with
  | none => Outcome.ret "?"
  | some i =>
    let text := match flavour with
      | 0 => GNUSyntax i
      | _ => GNUSyntax i
    match inst.IsCall with
    | Outcome.panic => Outcome.panic
    | Outcome.ret false => Outcome.ret text
    | Outcome.ret true =>
      match inst.DestLoc with
      | none => Outcome.ret text
      | some dest =>
        match dest.Fn with
        | none => Outcome.ret text
        | some f => Outcome.ret (text ++ " " ++ f.Name)

/-! ## Call target resolver -/

/-- The register accessor (interface `Registers`): the method `Get`. -/
structure Registers where
  Get : Int → Option Nat

/-- What `resolveCallArg` uses of its receiver: the thread's own register file
(`thread.Registers()`), its memory (`thread.readMemory(addr, size)`) and the
symbol lookup of its process (`thread.dbp.PCToLine(pc)`). A successful
`thread.Registers()` is taken to return a non-nil accessor. -/
structure Thread where
  Registers : Option Registers
  readMemory : Nat → Int → Option (List Nat)
  PCToLine : Nat → String × Int × Option Func

/-- The unsigned integer a list of bytes denotes in little-endian order. -/
def leValue : List Nat → Nat
  | [] => 0
  | b :: bs => b % 256 + 256 * leValue bs

/-- Go's `binary.LittleEndian.Uint64`: reads the first eight bytes, and panics
(index out of range) on a shorter slice. -/
def littleEndianUint64 (b : List Nat) : Outcome Nat :=
  if b.length < 8 then Outcome.panic else Outcome.ret (leValue (b.take 8))

/-- The register cases of the switch of `resolveCallArg` (`Reg`, `SpReg` and
`CondReg` fall through to one body). -/
def regDest (currentGoroutine : Bool) (regs : Option Registers) (r : Nat) :
    Outcome (Option Nat) :=
  if !currentGoroutine then Outcome.ret none
  else
    match regs with
    | none => Outcome.ret none
    | some regs =>
      match regs.Get (r : Int) with
      | none => Outcome.ret none
      | some pc => Outcome.ret (some pc)

/-- The address `base + index*Scale + Disp` of a memory operand, as
`uintptr(int64(base) + int64(index*uint64(arg.Scale)) + arg.Disp)`. -/
def memAddr (base index Scale : Nat) (Disp : Int) : Nat :=
  toUint64 (addInt64 (addInt64 (toInt64 base) (toInt64 (mulUint64 index (toUint64 Scale)))) Disp)

/-- The `Mem` case of the switch of `resolveCallArg`. -/
def memDest (thread : Thread) (inst : ArchInst) (currentGoroutine : Bool)
    (regs : Option Registers) (Segment Base Scale Index : Nat) (Disp : Int) :
    Outcome (Option Nat) :=
  if !currentGoroutine then Outcome.ret none
  else if regs.isNone then Outcome.ret none
  else if Segment ≠ 0 then Outcome.ret none
  else
    match thread.Registers with
    | none => Outcome.ret none
    | some regs =>
      match regs.Get (Base : Int), regs.Get (Index : Int) with
      | some base, some index =>
        match thread.readMemory (memAddr base index Scale Disp) inst.MemBytes with
        | none => Outcome.ret none
        | some pcbytes =>
          match littleEndianUint64 pcbytes with
          | Outcome.panic => Outcome.panic
          | Outcome.ret pc => Outcome.ret (some pc)
      | _, _ => Outcome.ret none

/-- The switch of `resolveCallArg` on `inst.Args[0]`: `ret (some pc)` when
control leaves the switch with the variable `pc` (initially `0`), `ret none`
when a case executes `return nil`. -/
def callDest (thread : Thread) (inst : ArchInst) (currentGoroutine : Bool)
    (regs : Option Registers) : Outcome (Option Nat) :=
  match inst.Args[0]? with
  | none => Outcome.panic
  | some (some (Arg.Imm arg)) => Outcome.ret (some (toUint64 arg))
  | some (some (Arg.Reg arg)) => regDest currentGoroutine regs arg
  | some (some (Arg.SpReg arg)) => regDest currentGoroutine regs arg
  | some (some (Arg.CondReg arg)) => regDest currentGoroutine regs arg
  | some (some (Arg.Mem Segment Base Scale Index Disp)) =>
      memDest thread inst currentGoroutine regs Segment Base Scale Index Disp
  | some (some (Arg.PCRel _)) => Outcome.ret (some 0)
  | some (some (Arg.Label _)) => Outcome.ret (some 0)
  | some (some (Arg.Offset _)) => Outcome.ret (some 0)
  | some none => Outcome.ret none

/-- The end of `resolveCallArg`: the lookup of `pc` and the construction of the
`Location`. -/
def lookupDest (thread : Thread) (pc : Nat) : Option Location :=
  match thread.PCToLine pc with
  | (_, _, none) => none
  | (file, line, some fn) => some { PC := pc, File := file, Line := line, Fn := some fn }

/-- The method `resolveCallArg`; the result `ret none` is the nil `*Location`. -/
def resolveCallArg (thread : Thread) (inst : ArchInst) (currentGoroutine : Bool)
    (regs : Option Registers) : Outcome (Option Location) :=
  if inst.Op ≠ Op.SC then Outcome.ret none
  else
    match callDest thread inst currentGoroutine regs with
    | Outcome.panic => Outcome.panic
    | Outcome.ret none => Outcome.ret none
    | Outcome.ret (some pc) => Outcome.ret (lookupDest thread pc)

/-! ## Prologue scanner -/

/-- The prologue signature `unixPrologue`. -/
def unixPrologue : List Op := [Op.LD, Op.ADDI, Op.CMPLD, Op.BLT, Op.MFLR, Op.BL]

/-- The list `prologues` of the known signatures. -/
def prologues : List (List Op) := [unixPrologue]

/-- The loop of `checkPrologue` from position `i` of the pattern on: `s[i]`
panics when out of range, `s[i].Inst.Op` panics on a nil `Inst`. -/
def checkPrologueFrom (s : List AsmInstruction) : Nat → List Op → Outcome Bool
  | _, [] => Outcome.ret true
  | i, op :: rest =>
    match s[i]? with
    | none => Outcome.panic
    | some a =>
      match a.Inst with
      | none => Outcome.panic
      | some inst =>
        if inst.Op ≠ op then Outcome.ret false else checkPrologueFrom s (i + 1) rest

/-- The function `checkPrologue`. -/
def checkPrologue (s : List AsmInstruction) (prologuePattern : List Op) : Outcome Bool :=
  checkPrologueFrom s 0 prologuePattern

/-- The loop of `FirstPCAfterPrologue` over the signatures still to try, and
the final `return fn.Entry, nil`. The result is the pair (address, error). -/
def scanPrologues (text : List AsmInstruction) (fn : Func) (sameline : Bool) :
    List (List Op) → Outcome (Nat × Option String)
  | [] => Outcome.ret (fn.Entry, none)
  | prologue :: rest =>
    if prologue.length ≥ text.length then scanPrologues text fn sameline rest
    else
      match checkPrologue text prologue with
      | Outcome.panic => Outcome.panic
      | Outcome.ret false => scanPrologues text fn sameline rest
      | Outcome.ret true =>
        match text[prologue.length]? with
        | none => Outcome.panic
        | some r =>
          if sameline then
            match text[0]? with
            | none => Outcome.panic
            | some first =>
              if r.Loc.Line ≠ first.Loc.Line then Outcome.ret (fn.Entry, none)
              else Outcome.ret (r.Loc.PC, none)
          else Outcome.ret (r.Loc.PC, none)

/-- What `FirstPCAfterPrologue` uses of its receiver: the disassembly driver
`dbp.CurrentThread.Disassemble(startPC, endPC, currentGoroutine)`. -/
structure Process where
  Disassemble : Nat → Nat → Bool → Except String (List AsmInstruction)

/-- The method `FirstPCAfterPrologue`. -/
def FirstPCAfterPrologue (dbp : Process) (fn : Func) (sameline : Bool) :
    Outcome (Nat × Option String) :=
  match dbp.Disassemble fn.Entry fn.End false with
  | Except.error err => Outcome.ret (fn.Entry, some err)
  | Except.ok text =>
    if text.length ≤ 0 then Outcome.ret (fn.Entry, none)
    else scanPrologues text fn sameline prologues

/-! ## Reads of the call target resolver -/

/-- A read that `resolveCallArg` performs: `regs.Get(r)` on the accessor it was
given, `thread.Registers()`, `regs.Get(r)` on the thread's own register file,
or `thread.readMemory(addr, size)`. -/
inductive ReadEvent where
  | accessorGet (r : Int)
  | threadRegisters
  | threadGet (r : Int)
  | readMemory (addr : Nat) (size : Int)
  deriving DecidableEq, Repr

/-- The reads of the register cases of the switch, in order. -/
def regReads (currentGoroutine : Bool) (regs : Option Registers) (r : Nat) : List ReadEvent :=
  if !currentGoroutine then []
  else
    match regs with
    | none => []
    | some _ => [ReadEvent.accessorGet (r : Int)]

/-- The reads of the `Mem` case of the switch, in order. -/
def memReads (thread : Thread) (inst : ArchInst) (currentGoroutine : Bool)
    (regs : Option Registers) (Segment Base Scale Index : Nat) (Disp : Int) :
    List ReadEvent :=
  if !currentGoroutine then []
  else if regs.isNone then []
  else if Segment ≠ 0 then []
  else
    match thread.Registers with
    | none => [ReadEvent.threadRegisters]
    | some regs =>
      match regs.Get (Base : Int), regs.Get (Index : Int) with
      | some base, some index =>
        [ReadEvent.threadRegisters, ReadEvent.threadGet (Base : Int),
         ReadEvent.threadGet (Index : Int),
         ReadEvent.readMemory (memAddr base index Scale Disp) inst.MemBytes]
      | _, _ =>
        [ReadEvent.threadRegisters, ReadEvent.threadGet (Base : Int),
         ReadEvent.threadGet (Index : Int)]

/-- The register and memory reads that a call of `resolveCallArg` performs, in
order. -/
def resolveCallArgReads (thread : Thread) (inst : ArchInst) (currentGoroutine : Bool)
    (regs : Option Registers) : List ReadEvent :=
  if inst.Op ≠ Op.SC then []
  else
    match inst.Args[0]? with
    | some (some (Arg.Reg arg)) => regReads currentGoroutine regs arg
    | some (some (Arg.SpReg arg)) => regReads currentGoroutine regs arg
    | some (some (Arg.CondReg arg)) => regReads currentGoroutine regs arg
    | some (some (Arg.Mem Segment Base Scale Index Disp)) =>
        memReads thread inst currentGoroutine regs Segment Base Scale Index Disp
    | _ => []

/-! ## Example inputs -/

/-- A symbol table with one function, `main.f`, over the addresses from `4096`
up to `8192`. -/
def oneFuncTable (pc : Nat) : String × Int × Option Func :=
  if 4096 ≤ pc ∧ pc < 8192 then ("main.go", 7, some ⟨"main.f", 4096, 8192⟩) else ("", 0, none)

/-- A symbol table in which address `0` lies in a function. -/
def zeroFuncTable (pc : Nat) : String × Int × Option Func :=
  if pc < 64 then ("rt0.go", 1, some ⟨"rt0", 0, 64⟩) else ("", 0, none)

/-- A register file: register `3` holds `256`, register `4` holds `2`, and no
other register can be read. -/
def exampleRegs : Registers :=
  ⟨fun r => if r = 3 then some 256 else if r = 4 then some 2 else none⟩

/-- A register file in which every register holds `4100`. -/
def constRegs : Registers := ⟨fun _ => some 4100⟩

/-- A memory that holds, from address `280 = 256 + 2*8 + 8` on, the eight bytes
of the little-endian pointer `4112`, then a byte `1`, then zeroes, and cannot be
read elsewhere; a read of `size` bytes (up to sixteen) returns `size` bytes. -/
def exampleMemory (addr : Nat) (size : Int) : Option (List Nat) :=
  if addr = 280 then
    some (([16, 16, 0, 0, 0, 0, 0, 0, 1] ++ List.replicate 7 0).take size.toNat)
  else none

/-- A thread with `exampleRegs`, `exampleMemory` and `oneFuncTable`. -/
def exampleThread : Thread := ⟨some exampleRegs, exampleMemory, oneFuncTable⟩

/-- A thread like `exampleThread` whose symbol table is `zeroFuncTable`. -/
def zeroThread : Thread := ⟨some exampleRegs, exampleMemory, zeroFuncTable⟩

/-- A thread like `exampleThread` whose registers cannot be read. -/
def noRegsThread : Thread := ⟨none, exampleMemory, oneFuncTable⟩

/-- A call instruction with the one operand `a` and memory width `width`. -/
def callOf (a : Arg) (width : Int) : ArchInst := ⟨Op.SC, [some a], 4, width⟩

/-- The opcode of an entry of a disassembly, when the entry has a decoded
form. -/
def opOf (a : AsmInstruction) : Option Op := a.Inst.map (fun inst => inst.Op)

/-- An entry at address `pc` and line `line` with opcode `op`. -/
def asmOf (op : Op) (pc : Nat) (line : Int) : AsmInstruction :=
  ⟨⟨pc, "main.go", line, none⟩, none, some ⟨op, [], 4, 0⟩⟩

/-- A body of seven instructions: the six of `unixPrologue` on line `7`, then
one more instruction at address `4120` on line `line`. -/
def prologueBody (line : Int) : List AsmInstruction :=
  [asmOf Op.LD 4096 7, asmOf Op.ADDI 4100 7, asmOf Op.CMPLD 4104 7, asmOf Op.BLT 4108 7,
   asmOf Op.MFLR 4112 7, asmOf Op.BL 4116 7, asmOf (Op.other 0) 4120 line]

/-- A process whose disassembly driver returns `text`. -/
def processOf (text : List AsmInstruction) : Process := ⟨fun _ _ _ => Except.ok text⟩

/-- The function `main.f` of the example bodies. -/
def exampleFunc : Func := ⟨"main.f", 4096, 4124⟩

/-- An entry at address `pc` and line `line` without a decoded form, as the
disassembly driver leaves it when the bytes do not decode. -/
def undecodedAt (pc : Nat) (line : Int) : AsmInstruction :=
  ⟨⟨pc, "main.go", line, none⟩, none, none⟩

/-- A body of seven entries: the first has no decoded form, the second has an
opcode that is not `ADDI`, the others are those of `prologueBody 7`. -/
def undecodedBody : List AsmInstruction :=
  [undecodedAt 4096 7, asmOf (Op.other 0) 4100 7, asmOf Op.CMPLD 4104 7,
   asmOf Op.BLT 4108 7, asmOf Op.MFLR 4112 7, asmOf Op.BL 4116 7, asmOf (Op.other 0) 4120 7]

/-- A renderer for the examples: the opcode `SC` is written `sc`, every other
opcode `op`. -/
def exampleSyntax (inst : ArchInst) : String :=
  if inst.Op = Op.SC then "sc" else "op"

/-- A raw decoder for the examples: it fails on the empty input and otherwise
returns the branch `bl` with the relative operand `16`. -/
def exampleDecode (mem : List Nat) : Except String ArchInst :=
  match mem with
  | [] => Except.error "short"
  | _ => Except.ok ⟨Op.BL, [some (Arg.PCRel 16), none], 4, 0⟩

/-! ## Theorems -/

theorem toInt64_add_emod (a b : Int) : toInt64 (toInt64 a + b) = toInt64 (a + b) := by
  unfold toInt64
  omega

theorem toInt64_add_emod_right (a b : Int) : toInt64 (a + toInt64 b) = toInt64 (a + b) := by
  unfold toInt64
  omega

/-- The patched address is the sum `pc + rel + len` reduced to `int64`. -/
theorem patched_value (pc : Nat) (rel len : Int) :
    addInt64 (addInt64 (toInt64 pc) (toInt64 rel)) (toInt64 len)
      = toInt64 ((pc : Int) + rel + len) := by
  simp only [addInt64, toInt64_add_emod, toInt64_add_emod_right]

/-- C1: after `patchPCPCRel pc inst` the operand list has the same slots; each
slot that held `PCRel rel` holds `Imm` of `pc + rel + inst.Len` in signed 64-bit
arithmetic, every other slot is unchanged, and `Op`, `Len` (and `MemBytes`) are
unchanged. -/
theorem patchPCPCRel_spec (pc : Nat) (inst : ArchInst) :
    (patchPCPCRel pc inst).Args.length = inst.Args.length
    ∧ (∀ (i : Nat) (rel : Int), inst.Args[i]? = some (some (Arg.PCRel rel)) →
        (patchPCPCRel pc inst).Args[i]?
          = some (some (Arg.Imm (toInt64 ((pc : Int) + rel + inst.Len)))))
    ∧ (∀ (i : Nat), (∀ rel : Int, inst.Args[i]? ≠ some (some (Arg.PCRel rel))) →
        (patchPCPCRel pc inst).Args[i]? = inst.Args[i]?)
    ∧ (patchPCPCRel pc inst).Op = inst.Op
    ∧ (patchPCPCRel pc inst).Len = inst.Len
    ∧ (patchPCPCRel pc inst).MemBytes = inst.MemBytes := by
  refine ⟨by simp [patchPCPCRel], ?_, ?_, rfl, rfl, rfl⟩
  · intro i rel h
    simp [patchPCPCRel, List.getElem?_map, h, patchArg, patched_value]
  · intro i h
    simp only [patchPCPCRel, List.getElem?_map]
    cases hi : inst.Args[i]? with
    | none => rfl
    | some a =>
      cases a with
      | none => rfl
      | some x =>
        cases x <;> first | rfl | (exfalso; exact h _ (by rw [hi]))

/-- A use of C1: `bl 16` at address `4096`, four bytes long, becomes a branch to
the absolute address `4116`; the register operand and the empty slot stay. -/
theorem patchPCPCRel_spec_witness :
    (patchPCPCRel 4096 ⟨Op.BL, [some (Arg.PCRel 16), some (Arg.Reg 3), none], 4, 0⟩).Args[0]?
        = some (some (Arg.Imm 4116))
    ∧ (patchPCPCRel 4096 ⟨Op.BL, [some (Arg.PCRel 16), some (Arg.Reg 3), none], 4, 0⟩).Args[1]?
        = some (some (Arg.Reg 3)) :=
  ⟨(patchPCPCRel_spec 4096 ⟨Op.BL, [some (Arg.PCRel 16), some (Arg.Reg 3), none], 4, 0⟩).2.1
      0 16 rfl,
   (patchPCPCRel_spec 4096 ⟨Op.BL, [some (Arg.PCRel 16), some (Arg.Reg 3), none], 4, 0⟩).2.2.1
      1 (fun _ h => by cases h)⟩

/-! ### Call target resolver -/

theorem lookupDest_some (thread : Thread) (pc : Nat) (file : String) (line : Int) (fn : Func)
    (h : thread.PCToLine pc = (file, line, some fn)) :
    lookupDest thread pc = some ⟨pc, file, line, some fn⟩ := by
  simp [lookupDest, h]

theorem lookupDest_none (thread : Thread) (pc : Nat) (h : (thread.PCToLine pc).2.2 = none) :
    lookupDest thread pc = none := by
  rcases hp : thread.PCToLine pc with ⟨file, line, fn⟩
  rw [hp] at h
  simp only at h
  subst h
  simp [lookupDest, hp]

theorem lookupDest_eq_some (thread : Thread) (pc : Nat) (L : Location)
    (h : lookupDest thread pc = some L) :
    L.PC = pc ∧ (∃ fn, (thread.PCToLine pc).2.2 = some fn)
      ∧ L.File = (thread.PCToLine pc).1 ∧ L.Line = (thread.PCToLine pc).2.1
      ∧ L.Fn = (thread.PCToLine pc).2.2 := by
  rcases hp : thread.PCToLine pc with ⟨file, line, fn⟩
  cases fn with
  | none => simp [lookupDest, hp] at h
  | some f =>
    simp [lookupDest, hp] at h
    subst h
    simp

/-- The result of `resolveCallArg` on a call instruction, from the outcome of
the switch on its first operand. -/
theorem resolveCallArg_of_callDest (thread : Thread) (inst : ArchInst) (cg : Bool)
    (regs : Option Registers) (hop : inst.Op = Op.SC) :
    resolveCallArg thread inst cg regs =
      match callDest thread inst cg regs with
      | Outcome.panic => Outcome.panic
      | Outcome.ret none => Outcome.ret none
      | Outcome.ret (some pc) => Outcome.ret (lookupDest thread pc) := by
  simp [resolveCallArg, hop]

/-- C2: a `Location` that `resolveCallArg` returns is the one the PC-to-line
lookup gives for its `PC`: the lookup finds a function there, and the file, the
line and the function are those of the lookup; and when the lookup of the
candidate address the switch computed finds no function, the result is nil. -/
theorem resolveCallArg_location (thread : Thread) (inst : ArchInst) (cg : Bool)
    (regs : Option Registers) :
    (∀ L : Location, resolveCallArg thread inst cg regs = Outcome.ret (some L) →
      (∃ fn, (thread.PCToLine L.PC).2.2 = some fn)
        ∧ L.File = (thread.PCToLine L.PC).1
        ∧ L.Line = (thread.PCToLine L.PC).2.1
        ∧ L.Fn = (thread.PCToLine L.PC).2.2)
    ∧ (∀ pc : Nat, callDest thread inst cg regs = Outcome.ret (some pc) →
        (thread.PCToLine pc).2.2 = none →
        resolveCallArg thread inst cg regs = Outcome.ret none) := by
  constructor
  · intro L h
    unfold resolveCallArg at h
    split at h
    · simp at h
    · split at h
      · simp at h
      · simp at h
      · rename_i pc _
        have h2 : lookupDest thread pc = some L := by simpa using h
        obtain ⟨hpc, hfn, hfile, hline, hf⟩ := lookupDest_eq_some thread pc L h2
        subst hpc
        exact ⟨hfn, hfile, hline, hf⟩
  · intro pc hc hnone
    unfold resolveCallArg
    split
    · rfl
    · simp [hc, lookupDest_none thread pc hnone]

/-- A use of C2: the location returned for a call of the immediate address
`4112`, and the nil result for the immediate address `16`, which lies in no
function. -/
theorem resolveCallArg_location_witness :
    ((∃ fn, (exampleThread.PCToLine 4112).2.2 = some fn)
      ∧ "main.go" = (exampleThread.PCToLine 4112).1
      ∧ (7 : Int) = (exampleThread.PCToLine 4112).2.1
      ∧ some (⟨"main.f", 4096, 8192⟩ : Func) = (exampleThread.PCToLine 4112).2.2)
    ∧ resolveCallArg exampleThread (callOf (Arg.Imm 16) 8) false none = Outcome.ret none :=
  ⟨(resolveCallArg_location exampleThread (callOf (Arg.Imm 4112) 8) false none).1
      ⟨4112, "main.go", 7, some ⟨"main.f", 4096, 8192⟩⟩ (by decide),
   (resolveCallArg_location exampleThread (callOf (Arg.Imm 16) 8) false none).2
      16 (by decide) (by decide)⟩

/-- C3: on a call instruction whose first operand is `Imm v`, `resolveCallArg`
returns the location looked up for the address `uint64(v)`, or nil when that
address lies in no function, and the result is the same for every value of the
flag `currentGoroutine` and every register accessor, nil included. -/
theorem resolveCallArg_imm (thread : Thread) (inst : ArchInst) (v : Int)
    (hop : inst.Op = Op.SC) (harg : inst.Args[0]? = some (some (Arg.Imm v)))
    (cg : Bool) (regs : Option Registers) :
    (∀ file line fn, thread.PCToLine (toUint64 v) = (file, line, some fn) →
        resolveCallArg thread inst cg regs
          = Outcome.ret (some ⟨toUint64 v, file, line, some fn⟩))
    ∧ ((thread.PCToLine (toUint64 v)).2.2 = none →
        resolveCallArg thread inst cg regs = Outcome.ret none)
    ∧ (∀ (cg2 : Bool) (regs2 : Option Registers),
        resolveCallArg thread inst cg2 regs2 = resolveCallArg thread inst cg regs) := by
  have key : ∀ (c : Bool) (r : Option Registers),
      resolveCallArg thread inst c r = Outcome.ret (lookupDest thread (toUint64 v)) := by
    intro c r
    simp [resolveCallArg, hop, callDest, harg]
  refine ⟨?_, ?_, ?_⟩
  · intro file line fn h
    rw [key, lookupDest_some thread _ file line fn h]
  · intro h
    rw [key, lookupDest_none thread _ h]
  · intro cg2 regs2
    rw [key, key]

/-- A use of C3: the call of the immediate `-1` resolves to the address
`2^64 - 1`, with the flag unset and no accessor, in a symbol table where that
address lies in a function. -/
theorem resolveCallArg_imm_witness :
    resolveCallArg ⟨none, exampleMemory, fun _ => ("a.go", 3, some ⟨"g", 0, 0⟩)⟩
        (callOf (Arg.Imm (-1)) 8) false none
      = Outcome.ret (some ⟨18446744073709551615, "a.go", 3, some ⟨"g", 0, 0⟩⟩) :=
  (resolveCallArg_imm ⟨none, exampleMemory, fun _ => ("a.go", 3, some ⟨"g", 0, 0⟩)⟩
      (callOf (Arg.Imm (-1)) 8) (-1) rfl rfl false none).1 "a.go" 3 ⟨"g", 0, 0⟩ rfl

/-- C4: on an instruction whose first operand is a `Reg`, `SpReg`, `CondReg`
or `Mem`, `resolveCallArg` with `currentGoroutine = false` returns nil, for
every register accessor and every thread state. -/
theorem resolveCallArg_not_current (thread : Thread) (inst : ArchInst)
    (regs : Option Registers) (a : Arg)
    (harg : inst.Args[0]? = some (some a))
    (hkind : (∃ r, a = Arg.Reg r) ∨ (∃ r, a = Arg.SpReg r) ∨ (∃ r, a = Arg.CondReg r)
      ∨ (∃ Segment Base Scale Index Disp, a = Arg.Mem Segment Base Scale Index Disp)) :
    resolveCallArg thread inst false regs = Outcome.ret none := by
  unfold resolveCallArg
  split
  · rfl
  · rcases hkind with ⟨r, rfl⟩ | ⟨r, rfl⟩ | ⟨r, rfl⟩ | ⟨sg, b, sc, ix, d, rfl⟩ <;>
      simp [callDest, harg, regDest, memDest]

/-- A use of C4: a call through register `3`, which the accessor and the
thread can read, with the flag unset. -/
theorem resolveCallArg_not_current_witness :
    resolveCallArg exampleThread (callOf (Arg.Reg 3) 8) false (some constRegs)
      = Outcome.ret none :=
  resolveCallArg_not_current exampleThread (callOf (Arg.Reg 3) 8) (some constRegs)
    (Arg.Reg 3) rfl (Or.inl ⟨3, rfl⟩)

theorem toUint64_toInt64 (a : Int) : toUint64 (toInt64 a) = toUint64 a := by
  unfold toUint64 toInt64
  omega

theorem mul_emod_emod_right (a b M : Int) : (a * (b % M)) % M = (a * b) % M := by
  rw [Int.mul_emod, Int.emod_emod, ← Int.mul_emod]

/-- The address of a memory operand is `base + index*Scale + Disp` reduced
modulo `2^64`. -/
theorem memAddr_eq (base index Scale : Nat) (Disp : Int) :
    memAddr base index Scale Disp
      = toUint64 ((base : Int) + (index : Int) * (Scale : Int) + Disp) := by
  have hmul : ((mulUint64 index (toUint64 Scale) : Nat) : Int)
      = ((index : Int) * (Scale : Int)) % 2 ^ 64 := by
    have hs : ((toUint64 (Scale : Int) : Nat) : Int) = (Scale : Int) % 2 ^ 64 := by
      unfold toUint64
      omega
    have hM : ((2 ^ 64 : Nat) : Int) = 2 ^ 64 := by norm_num
    unfold mulUint64
    rw [Int.natCast_mod, Nat.cast_mul, hs, hM, mul_emod_emod_right]
  simp only [memAddr, addInt64, toInt64_add_emod, toInt64_add_emod_right, toUint64_toInt64]
  rw [hmul]
  generalize (index : Int) * (Scale : Int) = n
  unfold toUint64
  omega

/-- The `Mem` case when every read succeeds: the destination comes from
`binary.LittleEndian.Uint64` on the bytes read. -/
theorem memDest_reads (thread : Thread) (inst : ArchInst) (regs : Option Registers)
    (Base Scale Index : Nat) (Disp : Int) (R : Registers) (base index : Nat) (bs : List Nat)
    (hregs : regs ≠ none) (hR : thread.Registers = some R)
    (hbase : R.Get (Base : Int) = some base) (hindex : R.Get (Index : Int) = some index)
    (hmem : thread.readMemory
      (toUint64 ((base : Int) + (index : Int) * (Scale : Int) + Disp)) inst.MemBytes = some bs) :
    memDest thread inst true regs 0 Base Scale Index Disp =
      match littleEndianUint64 bs with
      | Outcome.panic => Outcome.panic
      | Outcome.ret pc => Outcome.ret (some pc) := by
  cases regs with
  | none => exact absurd rfl hregs
  | some r0 =>
    rw [← memAddr_eq] at hmem
    simp [memDest, hR, hbase, hindex, hmem]

theorem leValue_take_of_length_eq (bs : List Nat) (n : Nat) (h : bs.length = n) :
    leValue (bs.take n) = leValue bs := by
  rw [← h, List.take_length]

/-- C5, as the code has it: on a call instruction whose first operand is a
`Mem` with `Segment = 0`, when `currentGoroutine` is set, an accessor is
supplied, the thread's registers, `Base` and `Index` can be read and the read of
`inst.MemBytes` bytes at `base + index*Scale + Disp` (modulo `2^64`) returns at
least eight bytes, the candidate destination is the little-endian unsigned
integer of the first eight bytes read (all the bytes read when there are exactly
eight), and the result is the location of that destination when it lies in a
function. -/
theorem resolveCallArg_mem (thread : Thread) (inst : ArchInst) (regs : Option Registers)
    (Base Scale Index : Nat) (Disp : Int) (R : Registers) (base index : Nat) (bs : List Nat)
    (hop : inst.Op = Op.SC)
    (harg : inst.Args[0]? = some (some (Arg.Mem 0 Base Scale Index Disp)))
    (hregs : regs ≠ none) (hR : thread.Registers = some R)
    (hbase : R.Get (Base : Int) = some base) (hindex : R.Get (Index : Int) = some index)
    (hmem : thread.readMemory
      (toUint64 ((base : Int) + (index : Int) * (Scale : Int) + Disp)) inst.MemBytes = some bs)
    (hlen : 8 ≤ bs.length) :
    callDest thread inst true regs = Outcome.ret (some (leValue (bs.take 8)))
    ∧ (bs.length = 8 → leValue (bs.take 8) = leValue bs)
    ∧ (∀ file line fn, thread.PCToLine (leValue (bs.take 8)) = (file, line, some fn) →
        resolveCallArg thread inst true regs
          = Outcome.ret (some ⟨leValue (bs.take 8), file, line, some fn⟩)) := by
  have hd : callDest thread inst true regs = Outcome.ret (some (leValue (bs.take 8))) := by
    have hnot : ¬ bs.length < 8 := by omega
    simp only [callDest, harg]
    rw [memDest_reads thread inst regs Base Scale Index Disp R base index bs hregs hR hbase
      hindex hmem]
    simp [littleEndianUint64, hnot]
  refine ⟨hd, leValue_take_of_length_eq bs 8, ?_⟩
  intro file line fn h
  rw [resolveCallArg_of_callDest thread inst true regs hop, hd]
  simp [lookupDest_some thread _ file line fn h]

/-- A use of C5 as the code has it: the call through `8(r3 + r4*8)` with
memory width 8 reads the eight bytes at `280`, which hold the pointer `4112`. -/
theorem resolveCallArg_mem_witness :
    callDest exampleThread (callOf (Arg.Mem 0 3 8 4 8) 8) true (some constRegs)
        = Outcome.ret (some 4112)
    ∧ resolveCallArg exampleThread (callOf (Arg.Mem 0 3 8 4 8) 8) true (some constRegs)
        = Outcome.ret (some ⟨4112, "main.go", 7, some ⟨"main.f", 4096, 8192⟩⟩) :=
  have h := resolveCallArg_mem exampleThread (callOf (Arg.Mem 0 3 8 4 8) 8) (some constRegs)
    3 8 4 8 exampleRegs 256 2 [16, 16, 0, 0, 0, 0, 0, 0] rfl rfl (by simp) rfl
    (by decide) (by decide) (by decide) (by decide)
  ⟨h.1, h.2.2 "main.go" 7 ⟨"main.f", 4096, 8192⟩ (by decide)⟩

/-- C5 as stated fails. With memory width 4 every read succeeds and returns
four bytes, whose little-endian value `4112` lies in a function, yet
`resolveCallArg` returns no location: `binary.LittleEndian.Uint64` panics on
the four bytes. With memory width 16 the sixteen bytes read denote
`4112 + 2^64`, and the candidate destination is `4112`, the value of the first
eight. -/
theorem resolveCallArg_mem_width_counterexample :
    ¬ (∀ (thread : Thread) (inst : ArchInst) (regs : Option Registers)
        (Base Scale Index : Nat) (Disp : Int) (R : Registers) (base index : Nat)
        (bs : List Nat),
        inst.Op = Op.SC →
        inst.Args[0]? = some (some (Arg.Mem 0 Base Scale Index Disp)) →
        regs ≠ none → thread.Registers = some R →
        R.Get (Base : Int) = some base → R.Get (Index : Int) = some index →
        thread.readMemory
          (toUint64 ((base : Int) + (index : Int) * (Scale : Int) + Disp)) inst.MemBytes
          = some bs →
        (bs.length : Int) = inst.MemBytes →
        callDest thread inst true regs = Outcome.ret (some (leValue bs))
        ∧ (∀ file line fn, thread.PCToLine (leValue bs) = (file, line, some fn) →
            resolveCallArg thread inst true regs
              = Outcome.ret (some ⟨leValue bs, file, line, some fn⟩)))
    ∧ exampleThread.readMemory 280 16
        = some [16, 16, 0, 0, 0, 0, 0, 0, 1, 0, 0, 0, 0, 0, 0, 0]
    ∧ leValue [16, 16, 0, 0, 0, 0, 0, 0, 1, 0, 0, 0, 0, 0, 0, 0] = 4112 + 2 ^ 64
    ∧ callDest exampleThread (callOf (Arg.Mem 0 3 8 4 8) 16) true (some constRegs)
        = Outcome.ret (some 4112) := by
  refine ⟨?_, by decide, by decide, by decide⟩
  intro h
  have h2 := (h exampleThread (callOf (Arg.Mem 0 3 8 4 8) 4) (some constRegs) 3 8 4 8
    exampleRegs 256 2 [16, 16, 0, 0] rfl rfl (by simp) rfl
    (by decide) (by decide) (by decide) (by decide)).2
    "main.go" 7 ⟨"main.f", 4096, 8192⟩ (by decide)
  have h3 : resolveCallArg exampleThread (callOf (Arg.Mem 0 3 8 4 8) 4) true (some constRegs)
      = Outcome.panic := by decide
  rw [h3] at h2
  exact Outcome.noConfusion h2

/-- C6 fails on the code: on a call instruction whose first operand is a
`PCRel`, a `Label` or an `Offset` the switch leaves `pc` at `0`, and in a symbol
table where address `0` lies in a function `resolveCallArg` returns the location
of address `0`, not nil. -/
theorem resolveCallArg_pcrel_zero :
    resolveCallArg zeroThread (callOf (Arg.PCRel 16) 8) false none
        = Outcome.ret (some ⟨0, "rt0.go", 1, some ⟨"rt0", 0, 64⟩⟩)
    ∧ resolveCallArg zeroThread (callOf (Arg.Label 16) 8) false none
        = Outcome.ret (some ⟨0, "rt0.go", 1, some ⟨"rt0", 0, 64⟩⟩)
    ∧ resolveCallArg zeroThread (callOf (Arg.Offset 16) 8) false none
        = Outcome.ret (some ⟨0, "rt0.go", 1, some ⟨"rt0", 0, 64⟩⟩) := by
  decide

/-- C7: a failed read makes `resolveCallArg` return nil. In register mode
(first operand `Reg`, `SpReg` or `CondReg`) that is a failed `regs.Get`; in
memory mode (first operand `Mem`) a failed `thread.Registers()`, a failed read
of `Base` or of `Index`, or a failed `readMemory`. -/
theorem resolveCallArg_read_failure (thread : Thread) (inst : ArchInst) (cg : Bool)
    (regs : Option Registers) :
    (∀ (a : Arg) (r : Nat), inst.Args[0]? = some (some a) →
        (a = Arg.Reg r ∨ a = Arg.SpReg r ∨ a = Arg.CondReg r) →
        (∀ R : Registers, regs = some R → R.Get (r : Int) = none) →
        resolveCallArg thread inst cg regs = Outcome.ret none)
    ∧ (∀ (Segment Base Scale Index : Nat) (Disp : Int),
        inst.Args[0]? = some (some (Arg.Mem Segment Base Scale Index Disp)) →
        (thread.Registers = none
          ∨ ∃ R : Registers, thread.Registers = some R
              ∧ (R.Get (Base : Int) = none ∨ R.Get (Index : Int) = none
                ∨ ∃ base index, R.Get (Base : Int) = some base
                    ∧ R.Get (Index : Int) = some index
                    ∧ thread.readMemory (memAddr base index Scale Disp) inst.MemBytes
                        = none)) →
        resolveCallArg thread inst cg regs = Outcome.ret none) := by
  constructor
  · intro a r harg hkind hget
    unfold resolveCallArg
    split
    · rfl
    · have hreg : regDest cg regs r = Outcome.ret none := by
        unfold regDest
        split
        · rfl
        · cases regs with
          | none => rfl
          | some R => simp [hget R rfl]
      rcases hkind with rfl | rfl | rfl <;> simp [callDest, harg, hreg]
  · intro Segment Base Scale Index Disp harg hfail
    unfold resolveCallArg
    split
    · rfl
    · have hmemd : memDest thread inst cg regs Segment Base Scale Index Disp
          = Outcome.ret none := by
        unfold memDest
        split
        · rfl
        · split
          · rfl
          · split
            · rfl
            · rcases hfail with h | ⟨R, hR, h | h | ⟨base, index, hb, hi, hm⟩⟩
              · simp [h]
              · simp only [hR, h]
              · simp only [hR, h]
                cases R.Get (Base : Int) <;> rfl
              · simp [hR, hb, hi, hm]
      simp [callDest, harg, hmemd]

/-- A use of C7: register `7` cannot be read through the accessor; the thread's
registers cannot be read; and the memory at `8(r3 + r4*8) = 280` can be read
but the memory at `0(r3 + r4*8) = 272` cannot. -/
theorem resolveCallArg_read_failure_witness :
    resolveCallArg exampleThread (callOf (Arg.Reg 7) 8) true (some exampleRegs)
        = Outcome.ret none
    ∧ resolveCallArg noRegsThread (callOf (Arg.Mem 0 3 8 4 8) 8) true (some exampleRegs)
        = Outcome.ret none
    ∧ resolveCallArg exampleThread (callOf (Arg.Mem 0 3 8 4 0) 8) true (some exampleRegs)
        = Outcome.ret none :=
  ⟨(resolveCallArg_read_failure exampleThread (callOf (Arg.Reg 7) 8) true
      (some exampleRegs)).1 (Arg.Reg 7) 7 rfl (Or.inl rfl)
      (fun R hR => by cases hR; decide),
   (resolveCallArg_read_failure noRegsThread (callOf (Arg.Mem 0 3 8 4 8) 8) true
      (some exampleRegs)).2 0 3 8 4 8 rfl (Or.inl rfl),
   (resolveCallArg_read_failure exampleThread (callOf (Arg.Mem 0 3 8 4 0) 8) true
      (some exampleRegs)).2 0 3 8 4 0 rfl
      (Or.inr ⟨exampleRegs, rfl, Or.inr (Or.inr ⟨256, 2, by decide, by decide, by decide⟩)⟩)⟩

/-! ### Prologue scanner -/

/-- When the opcodes of `s` from position `i` on are those of the pattern,
`checkPrologueFrom` returns `true`. -/
theorem checkPrologueFrom_match (s : List AsmInstruction) :
    ∀ (pat : List Op) (i : Nat),
      (∀ j, j < pat.length → (s[i + j]?).map opOf = (pat[j]?).map some) →
      checkPrologueFrom s i pat = Outcome.ret true := by
  intro pat
  induction pat with
  | nil => intro i _; rfl
  | cons op rest ih =>
    intro i h
    have h0 := h 0 (by simp)
    simp only [Nat.add_zero, List.getElem?_cons_zero, Option.map_some'] at h0
    cases hs : s[i]? with
    | none => simp [hs] at h0
    | some a =>
      rw [hs] at h0
      simp only [Option.map_some', Option.some.injEq, opOf] at h0
      cases ha : a.Inst with
      | none => simp [ha] at h0
      | some inst =>
        rw [ha] at h0
        simp only [Option.map_some', Option.some.injEq] at h0
        have hrest : checkPrologueFrom s (i + 1) rest = Outcome.ret true := by
          apply ih
          intro j hj
          have hj1 := h (j + 1) (by simpa using hj)
          rw [List.getElem?_cons_succ] at hj1
          rw [← hj1]
          congr 2
          omega
        simp [checkPrologueFrom, hs, ha, h0, hrest]

/-- A body whose first six opcodes are those of `unixPrologue` passes
`checkPrologue`. -/
theorem checkPrologue_unix (text : List AsmInstruction)
    (hops : (text.take 6).map opOf
      = [some Op.LD, some Op.ADDI, some Op.CMPLD, some Op.BLT, some Op.MFLR, some Op.BL]) :
    checkPrologue text unixPrologue = Outcome.ret true := by
  apply checkPrologueFrom_match
  intro j hj
  have hj6 : j < 6 := by simpa [unixPrologue] using hj
  have h := congrArg (fun l => l[j]?) hops
  simp only [List.getElem?_map, List.getElem?_take, hj6, if_true] at h
  rw [Nat.zero_add, h]
  have hcases : j = 0 ∨ j = 1 ∨ j = 2 ∨ j = 3 ∨ j = 4 ∨ j = 5 := by omega
  rcases hcases with rfl | rfl | rfl | rfl | rfl | rfl <;> rfl

/-- C8: when the disassembly succeeds and the first six opcodes of the body are
LD, ADDI, CMPLD, BLT, MFLR, BL, with a seventh instruction `r` after them, then
`FirstPCAfterPrologue` returns `r.Loc.PC` and no error, provided `sameline` is
unset or the line of `r` is the line of the first instruction. -/
theorem FirstPCAfterPrologue_match (dbp : Process) (fn : Func) (sameline : Bool)
    (text : List AsmInstruction) (first r : AsmInstruction)
    (hdis : dbp.Disassemble fn.Entry fn.End false = Except.ok text)
    (hops : (text.take 6).map opOf
      = [some Op.LD, some Op.ADDI, some Op.CMPLD, some Op.BLT, some Op.MFLR, some Op.BL])
    (hfirst : text[0]? = some first) (hr : text[6]? = some r)
    (hline : sameline = false ∨ r.Loc.Line = first.Loc.Line) :
    7 ≤ text.length ∧ FirstPCAfterPrologue dbp fn sameline = Outcome.ret (r.Loc.PC, none) := by
  have hlen : 6 < text.length := by
    by_contra hcon
    rw [List.getElem?_eq_none (by omega)] at hr
    exact Option.noConfusion hr
  refine ⟨hlen, ?_⟩
  have hr6 : text[unixPrologue.length]? = some r := hr
  have hpos : ¬ text.length ≤ 0 := by omega
  have hskip : ¬ unixPrologue.length ≥ text.length := by
    simp only [unixPrologue, List.length_cons, List.length_nil]
    omega
  simp only [FirstPCAfterPrologue, hdis, hpos, if_false, prologues, scanPrologues, hskip,
    checkPrologue_unix text hops, hr6, hfirst]
  rcases hline with h | h
  · simp [h]
  · simp [h]

/-- A use of C8: the seven-instruction body with the seventh instruction on
the line of the first, and `sameline` set. -/
theorem FirstPCAfterPrologue_match_witness :
    FirstPCAfterPrologue (processOf (prologueBody 7)) exampleFunc true
      = Outcome.ret (4120, none) :=
  (FirstPCAfterPrologue_match (processOf (prologueBody 7)) exampleFunc true (prologueBody 7)
    (asmOf Op.LD 4096 7) (asmOf (Op.other 0) 4120 7) rfl rfl rfl rfl (Or.inr rfl)).2

/-- C9: when the disassembly succeeds with six or fewer instructions, the empty
body included, `FirstPCAfterPrologue` returns `fn.Entry` and no error, for
every value of `sameline`; in general the scan leaves every signature untried
that is not shorter than the body. -/
theorem FirstPCAfterPrologue_short (dbp : Process) (fn : Func) (sameline : Bool)
    (text : List AsmInstruction)
    (hdis : dbp.Disassemble fn.Entry fn.End false = Except.ok text) :
    (text.length ≤ 6 → FirstPCAfterPrologue dbp fn sameline = Outcome.ret (fn.Entry, none))
    ∧ (∀ ps : List (List Op), (∀ p ∈ ps, text.length ≤ p.length) →
        scanPrologues text fn sameline ps = Outcome.ret (fn.Entry, none)) := by
  have hscan : ∀ ps : List (List Op), (∀ p ∈ ps, text.length ≤ p.length) →
      scanPrologues text fn sameline ps = Outcome.ret (fn.Entry, none) := by
    intro ps
    induction ps with
    | nil => intro _; rfl
    | cons p rest ih =>
      intro h
      have hp : p.length ≥ text.length := h p (List.mem_cons_self _ _)
      simp only [scanPrologues, hp, if_true]
      exact ih (fun q hq => h q (List.mem_cons_of_mem _ hq))
  refine ⟨?_, hscan⟩
  intro hlen
  simp only [FirstPCAfterPrologue, hdis]
  split
  · rfl
  · apply hscan
    intro p hp
    simp only [prologues, List.mem_singleton] at hp
    subst hp
    simpa [unixPrologue] using hlen

/-- A use of C9: the body made of the six instructions of the prologue and
nothing after them. -/
theorem FirstPCAfterPrologue_short_witness :
    FirstPCAfterPrologue (processOf ((prologueBody 7).take 6)) exampleFunc false
      = Outcome.ret (4096, none) :=
  (FirstPCAfterPrologue_short (processOf ((prologueBody 7).take 6)) exampleFunc false
    ((prologueBody 7).take 6) rfl).1 (by decide)

/-- C10: when the disassembly succeeds, the first six opcodes of the body are
those of the prologue signature, `sameline` is set and the line of the
instruction `r` after the prologue differs from the line of the first
instruction, `FirstPCAfterPrologue` returns `fn.Entry` and no error; this is
not the address of `r` whenever the two addresses differ. -/
theorem FirstPCAfterPrologue_other_line (dbp : Process) (fn : Func)
    (text : List AsmInstruction) (first r : AsmInstruction)
    (hdis : dbp.Disassemble fn.Entry fn.End false = Except.ok text)
    (hops : (text.take 6).map opOf
      = [some Op.LD, some Op.ADDI, some Op.CMPLD, some Op.BLT, some Op.MFLR, some Op.BL])
    (hfirst : text[0]? = some first) (hr : text[6]? = some r)
    (hline : r.Loc.Line ≠ first.Loc.Line) :
    FirstPCAfterPrologue dbp fn true = Outcome.ret (fn.Entry, none)
    ∧ (r.Loc.PC ≠ fn.Entry →
        FirstPCAfterPrologue dbp fn true ≠ Outcome.ret (r.Loc.PC, none)) := by
  have hlen : 6 < text.length := by
    by_contra hcon
    rw [List.getElem?_eq_none (by omega)] at hr
    exact Option.noConfusion hr
  have hr6 : text[unixPrologue.length]? = some r := hr
  have hpos : ¬ text.length ≤ 0 := by omega
  have hskip : ¬ unixPrologue.length ≥ text.length := by
    simp only [unixPrologue, List.length_cons, List.length_nil]
    omega
  have hres : FirstPCAfterPrologue dbp fn true = Outcome.ret (fn.Entry, none) := by
    simp [FirstPCAfterPrologue, hdis, hpos, prologues, scanPrologues, hskip,
      checkPrologue_unix text hops, hr6, hfirst, hline]
  refine ⟨hres, ?_⟩
  intro hne hcon
  rw [hres] at hcon
  injection hcon with h1
  injection h1 with h2
  exact hne h2.symm

/-- A use of C10: the seven-instruction body with the seventh instruction on
line `8`, the first on line `7`. -/
theorem FirstPCAfterPrologue_other_line_witness :
    FirstPCAfterPrologue (processOf (prologueBody 8)) exampleFunc true
      = Outcome.ret (4096, none) :=
  (FirstPCAfterPrologue_other_line (processOf (prologueBody 8)) exampleFunc (prologueBody 8)
    (asmOf Op.LD 4096 7) (asmOf (Op.other 0) 4120 8) rfl rfl rfl rfl (by decide)).1

/-- An entry of the body read through its index is a member of the body with a
decoded form, when all members have one. -/
theorem decoded_at (s : List AsmInstruction) (hall : ∀ a ∈ s, a.Inst ≠ none) (i : Nat)
    (hi : i < s.length) : ∃ a inst, s[i]? = some a ∧ a.Inst = some inst := by
  have hget : s[i]? = some s[i] := List.getElem?_eq_getElem hi
  have hmem : s[i] ∈ s := List.getElem_mem hi
  cases hinst : (s[i]).Inst with
  | none => exact absurd hinst (hall _ hmem)
  | some inst => exact ⟨s[i], inst, hget, hinst⟩

/-- When every entry `checkPrologueFrom` reads exists and has a decoded form,
it returns a result. -/
theorem checkPrologueFrom_returns (s : List AsmInstruction) :
    ∀ (pat : List Op) (i : Nat),
      (∀ j, j < pat.length → ∃ a inst, s[i + j]? = some a ∧ a.Inst = some inst) →
      ∃ b, checkPrologueFrom s i pat = Outcome.ret b := by
  intro pat
  induction pat with
  | nil => intro i _; exact ⟨true, rfl⟩
  | cons op rest ih =>
    intro i h
    obtain ⟨a, inst, hs, ha⟩ := h 0 (by simp)
    rw [Nat.add_zero] at hs
    by_cases hop : inst.Op = op
    · have hrest : ∃ b, checkPrologueFrom s (i + 1) rest = Outcome.ret b := by
        apply ih
        intro j hj
        obtain ⟨a2, inst2, hs2, ha2⟩ := h (j + 1) (by simpa using hj)
        refine ⟨a2, inst2, ?_, ha2⟩
        rw [← hs2]
        congr 1
        omega
      obtain ⟨b, hb⟩ := hrest
      exact ⟨b, by simp [checkPrologueFrom, hs, ha, hop, hb]⟩
    · exact ⟨false, by simp [checkPrologueFrom, hs, ha, hop]⟩

/-- On a body whose entries all have decoded forms, a signature shorter than
the body is compared without a panic. -/
theorem checkPrologue_returns (text : List AsmInstruction)
    (hall : ∀ a ∈ text, a.Inst ≠ none) (p : List Op) (hp : p.length < text.length) :
    ∃ b, checkPrologue text p = Outcome.ret b := by
  apply checkPrologueFrom_returns
  intro j hj
  rw [Nat.zero_add]
  exact decoded_at text hall j (by omega)

/-- On a non-empty body whose entries all have decoded forms, the scan of any
list of signatures returns a result. -/
theorem scanPrologues_returns (text : List AsmInstruction) (fn : Func) (sameline : Bool)
    (hne : text ≠ []) (hall : ∀ a ∈ text, a.Inst ≠ none) :
    ∀ ps : List (List Op), ∃ res, scanPrologues text fn sameline ps = Outcome.ret res := by
  have hpos : 0 < text.length := List.length_pos.mpr hne
  obtain ⟨first, _, hfirst, _⟩ := decoded_at text hall 0 hpos
  intro ps
  induction ps with
  | nil => exact ⟨_, rfl⟩
  | cons p rest ih =>
    obtain ⟨res, hres⟩ := ih
    by_cases hlen : p.length ≥ text.length
    · exact ⟨res, by simp only [scanPrologues, hlen, if_true, hres]⟩
    · obtain ⟨b, hb⟩ := checkPrologue_returns text hall p (by omega)
      obtain ⟨r, _, hr, _⟩ := decoded_at text hall p.length (by omega)
      cases b with
      | false => exact ⟨res, by simp only [scanPrologues, hlen, if_false, hb, hres]⟩
      | true =>
        cases sameline with
        | false => exact ⟨(r.Loc.PC, none), by simp [scanPrologues, hlen, hb, hr]⟩
        | true =>
          by_cases hline : r.Loc.Line = first.Loc.Line
          · exact ⟨(r.Loc.PC, none), by simp [scanPrologues, hlen, hb, hr, hfirst, hline]⟩
          · exact ⟨(fn.Entry, none), by simp [scanPrologues, hlen, hb, hr, hfirst, hline]⟩

/-- With `sameline` set, an address the scan returns is `fn.Entry` or the
address of an entry of the body on the line of the first entry. -/
theorem scanPrologues_sameline (text : List AsmInstruction) (fn : Func) :
    ∀ (ps : List (List Op)) (pc : Nat) (err : Option String),
      scanPrologues text fn true ps = Outcome.ret (pc, err) →
      pc = fn.Entry ∨ ∃ first r, text[0]? = some first ∧ r ∈ text ∧ r.Loc.PC = pc
        ∧ r.Loc.Line = first.Loc.Line := by
  intro ps
  induction ps with
  | nil =>
    intro pc err h
    simp only [scanPrologues, Outcome.ret.injEq, Prod.mk.injEq] at h
    exact Or.inl h.1.symm
  | cons p rest ih =>
    intro pc err h
    unfold scanPrologues at h
    split at h
    · exact ih pc err h
    · split at h
      · exact Outcome.noConfusion h
      · exact ih pc err h
      · split at h
        · exact Outcome.noConfusion h
        · rename_i r hr
          simp only [if_true] at h
          split at h
          · exact Outcome.noConfusion h
          · rename_i first hfirst
            split at h
            · simp only [Outcome.ret.injEq, Prod.mk.injEq] at h
              exact Or.inl h.1.symm
            · rename_i hline
              simp only [Outcome.ret.injEq, Prod.mk.injEq] at h
              refine Or.inr ⟨first, r, hfirst, List.getElem?_mem hr, h.1, ?_⟩
              exact not_not.mp hline

/-- C11: with `sameline` set, an address that `FirstPCAfterPrologue` returns is
`fn.Entry` itself or the `Loc.PC` of an instruction of the body whose `Loc.Line`
is the `Loc.Line` of the entry instruction `text[0]`; and an address is
returned whenever the disassembly fails, or the body is empty, or all its
entries have decoded forms. -/
theorem FirstPCAfterPrologue_sameline (dbp : Process) (fn : Func) :
    (∀ (pc : Nat) (err : Option String),
      FirstPCAfterPrologue dbp fn true = Outcome.ret (pc, err) →
      pc = fn.Entry ∨ ∃ text first r, dbp.Disassemble fn.Entry fn.End false = Except.ok text
        ∧ text[0]? = some first ∧ r ∈ text ∧ r.Loc.PC = pc
        ∧ r.Loc.Line = first.Loc.Line)
    ∧ ((∀ text, dbp.Disassemble fn.Entry fn.End false = Except.ok text →
          ∀ a ∈ text, a.Inst ≠ none) →
        ∃ res, FirstPCAfterPrologue dbp fn true = Outcome.ret res) := by
  constructor
  · intro pc err h
    unfold FirstPCAfterPrologue at h
    split at h
    · simp only [Outcome.ret.injEq, Prod.mk.injEq] at h
      exact Or.inl h.1.symm
    · rename_i text hdis
      split at h
      · simp only [Outcome.ret.injEq, Prod.mk.injEq] at h
        exact Or.inl h.1.symm
      · rcases scanPrologues_sameline text fn prologues pc err h with h1 | ⟨first, r, h1⟩
        · exact Or.inl h1
        · exact Or.inr ⟨text, first, r, hdis, h1⟩
  · intro hall
    unfold FirstPCAfterPrologue
    split
    · exact ⟨_, rfl⟩
    · rename_i text hdis
      split
      · exact ⟨_, rfl⟩
      · rename_i hlen
        have hne : text ≠ [] := by
          intro hnil
          apply hlen
          simp [hnil]
        exact scanPrologues_returns text fn true hne (hall text hdis) prologues

/-- A use of C11: on the seven-instruction body with all entries on line `7`
the address returned, `4120`, is that of the seventh entry, on the line of the
first. -/
theorem FirstPCAfterPrologue_sameline_witness :
    (4120 = exampleFunc.Entry ∨ ∃ text first r,
        (processOf (prologueBody 7)).Disassemble exampleFunc.Entry exampleFunc.End false
          = Except.ok text
        ∧ text[0]? = some first ∧ r ∈ text ∧ r.Loc.PC = 4120
        ∧ r.Loc.Line = first.Loc.Line)
    ∧ ∃ res, FirstPCAfterPrologue (processOf (prologueBody 7)) exampleFunc true
        = Outcome.ret res :=
  ⟨(FirstPCAfterPrologue_sameline (processOf (prologueBody 7)) exampleFunc).1 4120 none
      (by decide),
   (FirstPCAfterPrologue_sameline (processOf (prologueBody 7)) exampleFunc).2
      (fun text h a ha => by
        have ht : text = prologueBody 7 := by
          simp only [processOf, Except.ok.injEq] at h
          exact h.symm
        subst ht
        revert a
        decide)⟩

/-- When a position `k` of the pattern meets a different opcode and the entries
before it have decoded forms, `checkPrologueFrom` returns `false`. -/
theorem checkPrologueFrom_mismatch (s : List AsmInstruction) :
    ∀ (pat : List Op) (i k : Nat), k < pat.length →
      (∀ j, j < k → ∃ a inst, s[i + j]? = some a ∧ a.Inst = some inst) →
      (∃ a inst, s[i + k]? = some a ∧ a.Inst = some inst ∧ some inst.Op ≠ pat[k]?) →
      checkPrologueFrom s i pat = Outcome.ret false := by
  intro pat
  induction pat with
  | nil => intro i k hk; simp at hk
  | cons op rest ih =>
    intro i k hk hbefore hat
    cases k with
    | zero =>
      obtain ⟨a, inst, hs, ha, hne⟩ := hat
      rw [Nat.add_zero] at hs
      have hop : inst.Op ≠ op := by
        intro h
        apply hne
        simp [h]
      simp [checkPrologueFrom, hs, ha, hop]
    | succ k =>
      obtain ⟨a, inst, hs, ha⟩ := hbefore 0 (by omega)
      rw [Nat.add_zero] at hs
      by_cases hop : inst.Op = op
      · have hrest : checkPrologueFrom s (i + 1) rest = Outcome.ret false := by
          apply ih (i + 1) k (by simpa using hk)
          · intro j hj
            obtain ⟨a2, inst2, hs2, ha2⟩ := hbefore (j + 1) (by omega)
            refine ⟨a2, inst2, ?_, ha2⟩
            rw [← hs2]
            congr 1
            omega
          · obtain ⟨a2, inst2, hs2, ha2, hne2⟩ := hat
            refine ⟨a2, inst2, ?_, ha2, ?_⟩
            · rw [← hs2]
              congr 1
              omega
            · simpa using hne2
        simp [checkPrologueFrom, hs, ha, hop, hrest]
      · simp [checkPrologueFrom, hs, ha, hop]

/-- When position `k < 6` of the body has an opcode different from the `k`-th
opcode of the signature and the entries before it have decoded forms,
`FirstPCAfterPrologue` returns `fn.Entry` and no error. -/
theorem FirstPCAfterPrologue_mismatch (dbp : Process) (fn : Func) (sameline : Bool)
    (text : List AsmInstruction) (k : Nat)
    (hdis : dbp.Disassemble fn.Entry fn.End false = Except.ok text)
    (hk : k < 6)
    (hbefore : ∀ j, j < k → ∃ a inst, text[j]? = some a ∧ a.Inst = some inst)
    (hat : ∃ a inst, text[k]? = some a ∧ a.Inst = some inst
      ∧ some inst.Op ≠ [Op.LD, Op.ADDI, Op.CMPLD, Op.BLT, Op.MFLR, Op.BL][k]?) :
    FirstPCAfterPrologue dbp fn sameline = Outcome.ret (fn.Entry, none) := by
  have hcheck : checkPrologue text unixPrologue = Outcome.ret false := by
    apply checkPrologueFrom_mismatch text unixPrologue 0 k (by simpa [unixPrologue] using hk)
    · intro j hj
      rw [Nat.zero_add]
      exact hbefore j hj
    · rw [Nat.zero_add]
      exact hat
  simp only [FirstPCAfterPrologue, hdis]
  split
  · rfl
  · simp only [prologues, scanPrologues, hcheck]
    split <;> rfl

/-- C12 fails on the code: in the seven-entry body `undecodedBody` position 1
has an opcode that is not `ADDI`, yet `FirstPCAfterPrologue` does not return
`fn.Entry`: `checkPrologue` dereferences the nil `Inst` of position 0 and
panics. -/
theorem FirstPCAfterPrologue_undecoded_panics :
    (∃ a inst, undecodedBody[1]? = some a ∧ a.Inst = some inst ∧ inst.Op ≠ Op.ADDI)
    ∧ FirstPCAfterPrologue (processOf undecodedBody) exampleFunc false = Outcome.panic
    ∧ FirstPCAfterPrologue (processOf undecodedBody) exampleFunc true = Outcome.panic :=
  ⟨⟨asmOf (Op.other 0) 4100 7, ⟨Op.other 0, [], 4, 0⟩, rfl, rfl, by decide⟩,
   by decide, by decide⟩

/-! ### Instruction classifier and text renderer -/

/-- C13: on an instruction that has a decoded form, `IsCall` returns `true` if
and only if the opcode is `SC`, and `false` for every other opcode. -/
theorem IsCall_iff (inst : AsmInstruction) (i : ArchInst) (h : inst.Inst = some i) :
    (inst.IsCall = Outcome.ret true ↔ i.Op = Op.SC)
    ∧ (inst.IsCall = Outcome.ret false ↔ i.Op ≠ Op.SC) := by
  unfold AsmInstruction.IsCall
  rw [h]
  by_cases hop : i.Op = Op.SC <;> simp [hop]

/-- A use of C13: `IsCall` on a decoded `sc` and on a decoded `bl`. -/
theorem IsCall_iff_witness :
    (asmOf Op.SC 4096 7).IsCall = Outcome.ret true
    ∧ (asmOf Op.BL 4096 7).IsCall = Outcome.ret false :=
  ⟨(IsCall_iff (asmOf Op.SC 4096 7) ⟨Op.SC, [], 4, 0⟩ rfl).1.mpr rfl,
   (IsCall_iff (asmOf Op.BL 4096 7) ⟨Op.BL, [], 4, 0⟩ rfl).2.mpr (by decide)⟩

/-- C14 fails on the code: on an instruction whose decoded form `Inst` is nil,
`IsCall` dereferences `inst.Inst` and panics; it does not return `false`. -/
theorem IsCall_undecoded_panics :
    (undecodedAt 4096 7).Inst = none
    ∧ (undecodedAt 4096 7).IsCall = Outcome.panic
    ∧ (undecodedAt 4096 7).IsCall ≠ Outcome.ret false :=
  ⟨rfl, rfl, by decide⟩

/-- C18: `Text` returns the placeholder `"?"` on an instruction with no decoded
form; on a decoded call whose `DestLoc` is non-nil with a non-nil function it
returns the base rendered text, one space and the name of that function; on
every other decoded instruction it returns the base rendered text. -/
theorem Text_spec (GNUSyntax : ArchInst → String) (inst : AsmInstruction) (flavour : Nat) :
    (inst.Inst = none → inst.Text GNUSyntax flavour = Outcome.ret "?")
    ∧ (∀ (i : ArchInst) (dest : Location) (f : Func),
        inst.Inst = some i → i.Op = Op.SC → inst.DestLoc = some dest → dest.Fn = some f →
        inst.Text GNUSyntax flavour = Outcome.ret (GNUSyntax i ++ " " ++ f.Name))
    ∧ (∀ i : ArchInst, inst.Inst = some i →
        (i.Op ≠ Op.SC ∨ inst.DestLoc = none ∨ ∃ dest, inst.DestLoc = some dest ∧ dest.Fn = none) →
        inst.Text GNUSyntax flavour = Outcome.ret (GNUSyntax i)) := by
  have hbase : ∀ i : ArchInst,
      (match flavour with
        | 0 => GNUSyntax i
        | _ => GNUSyntax i) = GNUSyntax i := by
    intro i
    cases flavour <;> rfl
  refine ⟨?_, ?_, ?_⟩
  · intro h
    simp [AsmInstruction.Text, h]
  · intro i dest f hi hop hdest hf
    simp [AsmInstruction.Text, AsmInstruction.IsCall, hi, hop, hdest, hf, hbase]
  · intro i hi hother
    rcases hother with hop | hdest | ⟨dest, hdest, hf⟩
    · simp [AsmInstruction.Text, AsmInstruction.IsCall, hi, hop, hbase]
    · by_cases hop : i.Op = Op.SC <;>
        simp [AsmInstruction.Text, AsmInstruction.IsCall, hi, hop, hdest, hbase]
    · by_cases hop : i.Op = Op.SC <;>
        simp [AsmInstruction.Text, AsmInstruction.IsCall, hi, hop, hdest, hf, hbase]

/-- A use of C18: an undecoded entry, a call resolved to `main.f`, and a branch
that is no call. -/
theorem Text_spec_witness :
    (undecodedAt 4096 7).Text exampleSyntax 0 = Outcome.ret "?"
    ∧ AsmInstruction.Text exampleSyntax
        ⟨⟨4096, "main.go", 7, none⟩, some ⟨4112, "main.go", 7, some ⟨"main.f", 4096, 8192⟩⟩,
          some ⟨Op.SC, [], 4, 0⟩⟩ 0
        = Outcome.ret "sc main.f"
    ∧ (asmOf Op.BL 4096 7).Text exampleSyntax 0 = Outcome.ret "op" :=
  ⟨(Text_spec exampleSyntax (undecodedAt 4096 7) 0).1 rfl,
   (Text_spec exampleSyntax
      ⟨⟨4096, "main.go", 7, none⟩, some ⟨4112, "main.go", 7, some ⟨"main.f", 4096, 8192⟩⟩,
        some ⟨Op.SC, [], 4, 0⟩⟩ 0).2.1
      ⟨Op.SC, [], 4, 0⟩ ⟨4112, "main.go", 7, some ⟨"main.f", 4096, 8192⟩⟩
      ⟨"main.f", 4096, 8192⟩ rfl rfl rfl rfl,
   (Text_spec exampleSyntax (asmOf Op.BL 4096 7) 0).2.2 ⟨Op.BL, [], 4, 0⟩ rfl
      (Or.inl (by decide))⟩

/-! ### Decoding -/

theorem patchArg_ne_pcrel (pc : Nat) (len : Int) (a : Option Arg) (rel : Int) :
    patchArg pc len a ≠ some (Arg.PCRel rel) := by
  cases a with
  | none => simp [patchArg]
  | some x => cases x <;> simp [patchArg]

theorem patchArg_pcrel (pc : Nat) (len rel : Int) :
    patchArg pc len (some (Arg.PCRel rel))
      = some (Arg.Imm (toInt64 ((pc : Int) + rel + len))) := by
  simp [patchArg, patched_value]

theorem patchArg_other (pc : Nat) (len : Int) (a : Option Arg)
    (h : ∀ rel : Int, a ≠ some (Arg.PCRel rel)) : patchArg pc len a = a := by
  cases a with
  | none => rfl
  | some x => cases x <;> first | rfl | exact absurd rfl (h _)

/-- C15: `asmDecode` fails exactly when the raw decoder fails, with the
decoder's error; when the decoder succeeds `asmDecode` succeeds, and the
instruction it returns has no `PCRel` in any operand slot: it is the raw decode
with each `PCRel rel` replaced by `Imm` of `pc + rel + Len` (in `int64`) and
everything else unchanged. -/
theorem asmDecode_spec (Decode : List Nat → Except String ArchInst) (mem : List Nat)
    (pc : Nat) :
    ((∃ e, asmDecode Decode mem pc = Except.error e) ↔ (∃ e, Decode mem = Except.error e))
    ∧ (∀ e, Decode mem = Except.error e → asmDecode Decode mem pc = Except.error e)
    ∧ (∀ raw, Decode mem = Except.ok raw →
        ∃ inst, asmDecode Decode mem pc = Except.ok inst
          ∧ inst.Op = raw.Op ∧ inst.Len = raw.Len ∧ inst.MemBytes = raw.MemBytes
          ∧ inst.Args.length = raw.Args.length
          ∧ (∀ (i : Nat) (rel : Int), inst.Args[i]? ≠ some (some (Arg.PCRel rel)))
          ∧ (∀ (i : Nat) (rel : Int), raw.Args[i]? = some (some (Arg.PCRel rel)) →
              inst.Args[i]? = some (some (Arg.Imm (toInt64 ((pc : Int) + rel + raw.Len)))))
          ∧ (∀ i : Nat, (∀ rel : Int, raw.Args[i]? ≠ some (some (Arg.PCRel rel))) →
              inst.Args[i]? = raw.Args[i]?)) := by
  refine ⟨?_, ?_, ?_⟩
  · unfold asmDecode
    cases hd : Decode mem with
    | error e => simp
    | ok raw => simp
  · intro e he
    simp [asmDecode, he]
  · intro raw hraw
    refine ⟨patchPCPCRel pc raw, by simp [asmDecode, hraw], rfl, rfl, rfl,
      by simp [patchPCPCRel], ?_, ?_, ?_⟩
    · intro i rel h
      simp only [patchPCPCRel, List.getElem?_map] at h
      cases hi : raw.Args[i]? with
      | none => simp [hi] at h
      | some a =>
        rw [hi] at h
        simp only [Option.map_some', Option.some.injEq] at h
        exact patchArg_ne_pcrel pc raw.Len a rel h
    · intro i rel h
      simp only [patchPCPCRel, List.getElem?_map, h, Option.map_some', patchArg_pcrel]
    · intro i h
      simp only [patchPCPCRel, List.getElem?_map]
      cases hi : raw.Args[i]? with
      | none => rfl
      | some a =>
        have ha : ∀ rel : Int, a ≠ some (Arg.PCRel rel) := by
          intro rel hrel
          exact h rel (by rw [hi, hrel])
        simp only [Option.map_some', patchArg_other pc raw.Len a ha]

/-- A use of C15: the example decoder fails on the empty input and so does
`asmDecode`; on one byte at address `4096` the branch to `16` past the
four-byte instruction is decoded as the branch to `4116`. -/
theorem asmDecode_spec_witness :
    asmDecode exampleDecode [] 4096 = Except.error "short"
    ∧ ∃ inst, asmDecode exampleDecode [0] 4096 = Except.ok inst
        ∧ inst.Args[0]? = some (some (Arg.Imm 4116)) :=
  ⟨(asmDecode_spec exampleDecode [] 4096).2.1 "short" rfl,
   match (asmDecode_spec exampleDecode [0] 4096).2.2
      ⟨Op.BL, [some (Arg.PCRel 16), none], 4, 0⟩ rfl with
   | ⟨inst, hdec, _, _, _, _, _, hrel, _⟩ => ⟨inst, hdec, hrel 0 16 rfl⟩⟩

/-! ### Call target resolver: segments, registers and the accessor -/

/-- C16: on an instruction whose first operand is a `Mem` with a non-zero
`Segment`, `resolveCallArg` returns nil for every flag, accessor and thread
state, and performs no register or memory read. -/
theorem resolveCallArg_segment (thread : Thread) (inst : ArchInst) (cg : Bool)
    (regs : Option Registers) (Segment Base Scale Index : Nat) (Disp : Int)
    (harg : inst.Args[0]? = some (some (Arg.Mem Segment Base Scale Index Disp)))
    (hseg : Segment ≠ 0) :
    resolveCallArg thread inst cg regs = Outcome.ret none
    ∧ resolveCallArgReads thread inst cg regs = [] := by
  have hdest : memDest thread inst cg regs Segment Base Scale Index Disp
      = Outcome.ret none := by
    unfold memDest
    split
    · rfl
    · split
      · rfl
      · simp [hseg]
  have hreads : memReads thread inst cg regs Segment Base Scale Index Disp = [] := by
    unfold memReads
    split
    · rfl
    · split
      · rfl
      · simp [hseg]
  constructor
  · unfold resolveCallArg
    split
    · rfl
    · simp [callDest, harg, hdest]
  · unfold resolveCallArgReads
    split
    · rfl
    · simp [harg, hreads]

/-- A use of C16: a call through a memory operand with segment `1`, on the
current goroutine with an accessor and with readable registers and memory. -/
theorem resolveCallArg_segment_witness :
    resolveCallArg exampleThread (callOf (Arg.Mem 1 3 8 4 8) 8) true (some constRegs)
        = Outcome.ret none
    ∧ resolveCallArgReads exampleThread (callOf (Arg.Mem 1 3 8 4 8) 8) true (some constRegs)
        = [] :=
  resolveCallArg_segment exampleThread (callOf (Arg.Mem 1 3 8 4 8) 8) true (some constRegs)
    1 3 8 4 8 rfl (by decide)

/-- C17: on a call instruction whose first operand is a `Reg`, `SpReg` or
`CondReg` naming register `r`, with `currentGoroutine` set and an accessor
whose `Get` of `r` succeeds with `v`, the destination address is `v`: the
result is the location looked up for `v`, or nil when `v` lies in no
function. -/
theorem resolveCallArg_reg (thread : Thread) (inst : ArchInst) (R : Registers) (a : Arg)
    (r v : Nat) (hop : inst.Op = Op.SC) (harg : inst.Args[0]? = some (some a))
    (hkind : a = Arg.Reg r ∨ a = Arg.SpReg r ∨ a = Arg.CondReg r)
    (hget : R.Get (r : Int) = some v) :
    callDest thread inst true (some R) = Outcome.ret (some v)
    ∧ (∀ file line fn, thread.PCToLine v = (file, line, some fn) →
        resolveCallArg thread inst true (some R)
          = Outcome.ret (some ⟨v, file, line, some fn⟩))
    ∧ ((thread.PCToLine v).2.2 = none →
        resolveCallArg thread inst true (some R) = Outcome.ret none) := by
  have hd : callDest thread inst true (some R) = Outcome.ret (some v) := by
    rcases hkind with rfl | rfl | rfl <;> simp [callDest, harg, regDest, hget]
  have hres : resolveCallArg thread inst true (some R)
      = Outcome.ret (lookupDest thread v) := by
    rw [resolveCallArg_of_callDest thread inst true (some R) hop, hd]
  refine ⟨hd, ?_, ?_⟩
  · intro file line fn h
    rw [hres, lookupDest_some thread v file line fn h]
  · intro h
    rw [hres, lookupDest_none thread v h]

/-- A use of C17: a call through the special register `9`, which holds `4100`
in the accessor, resolves to `main.f`. -/
theorem resolveCallArg_reg_witness :
    resolveCallArg exampleThread (callOf (Arg.SpReg 9) 8) true (some constRegs)
      = Outcome.ret (some ⟨4100, "main.go", 7, some ⟨"main.f", 4096, 8192⟩⟩) :=
  (resolveCallArg_reg exampleThread (callOf (Arg.SpReg 9) 8) constRegs (Arg.SpReg 9) 9 4100
    rfl rfl (Or.inr (Or.inl rfl)) rfl).2.1 "main.go" 7 ⟨"main.f", 4096, 8192⟩ (by decide)

/-- C20: on an instruction whose first operand is a `Mem`, the result of
`resolveCallArg` and the reads it performs are the same for any two non-nil
accessors, and no read is a `Get` on the accessor supplied: `Base` and `Index`
are read from the thread's own register file. -/
theorem resolveCallArg_mem_accessor (thread : Thread) (inst : ArchInst) (cg : Bool)
    (R1 R2 : Registers) (Segment Base Scale Index : Nat) (Disp : Int)
    (harg : inst.Args[0]? = some (some (Arg.Mem Segment Base Scale Index Disp))) :
    resolveCallArg thread inst cg (some R1) = resolveCallArg thread inst cg (some R2)
    ∧ resolveCallArgReads thread inst cg (some R1)
        = resolveCallArgReads thread inst cg (some R2)
    ∧ (∀ r : Int, ReadEvent.accessorGet r ∉ resolveCallArgReads thread inst cg (some R1)) := by
  have hdest : memDest thread inst cg (some R1) Segment Base Scale Index Disp
      = memDest thread inst cg (some R2) Segment Base Scale Index Disp := by
    simp [memDest]
  have hreads : memReads thread inst cg (some R1) Segment Base Scale Index Disp
      = memReads thread inst cg (some R2) Segment Base Scale Index Disp := by
    simp [memReads]
  refine ⟨?_, ?_, ?_⟩
  · simp only [resolveCallArg, callDest, harg, hdest]
  · simp only [resolveCallArgReads, harg, hreads]
  · intro r
    unfold resolveCallArgReads
    split
    · simp
    · simp only [harg]
      unfold memReads
      split
      · simp
      · split
        · simp
        · split
          · simp
          · split
            · simp
            · split <;> simp

/-- A use of C20: the call through `8(r3 + r4*8)` resolves to `4112`, read
through the thread's registers, both with an accessor in which every register
holds `4100` and with the thread's own register file as accessor. -/
theorem resolveCallArg_mem_accessor_witness :
    resolveCallArg exampleThread (callOf (Arg.Mem 0 3 8 4 8) 8) true (some constRegs)
        = resolveCallArg exampleThread (callOf (Arg.Mem 0 3 8 4 8) 8) true (some exampleRegs)
    ∧ resolveCallArgReads exampleThread (callOf (Arg.Mem 0 3 8 4 8) 8) true (some constRegs)
        = [ReadEvent.threadRegisters, ReadEvent.threadGet 3, ReadEvent.threadGet 4,
            ReadEvent.readMemory 280 8] :=
  ⟨(resolveCallArg_mem_accessor exampleThread (callOf (Arg.Mem 0 3 8 4 8) 8) true constRegs
      exampleRegs 0 3 8 4 8 rfl).1,
   by decide⟩

/-! ### Bounds of the prologue scanner -/

/-- C19: on a non-empty body whose entries all have decoded forms every read of
the scanner is in bounds: for a signature shorter than the body each `s[i]` with
`i < len(prologue)` and the entry `text[len(prologue)]` exist and
`checkPrologue` returns; `text[0]` exists; a signature not shorter than the
body is skipped without being compared; and so the scan of any list of
signatures, and `FirstPCAfterPrologue`, return without a panic. -/
theorem scanner_in_bounds (text : List AsmInstruction) (fn : Func) (sameline : Bool)
    (hne : text ≠ []) (hall : ∀ a ∈ text, a.Inst ≠ none) :
    (∀ p : List Op, p.length < text.length →
        (∀ i, i < p.length → ∃ a inst, text[i]? = some a ∧ a.Inst = some inst)
        ∧ (∃ r, text[p.length]? = some r)
        ∧ (∃ b, checkPrologue text p = Outcome.ret b))
    ∧ (∃ first, text[0]? = some first)
    ∧ (∀ (p : List Op) (rest : List (List Op)), text.length ≤ p.length →
        scanPrologues text fn sameline (p :: rest) = scanPrologues text fn sameline rest)
    ∧ (∀ ps : List (List Op), ∃ res, scanPrologues text fn sameline ps = Outcome.ret res)
    ∧ (∀ dbp : Process, dbp.Disassemble fn.Entry fn.End false = Except.ok text →
        ∃ res, FirstPCAfterPrologue dbp fn sameline = Outcome.ret res) := by
  have hpos : 0 < text.length := List.length_pos.mpr hne
  refine ⟨?_, ?_, ?_, scanPrologues_returns text fn sameline hne hall, ?_⟩
  · intro p hp
    refine ⟨fun i hi => decoded_at text hall i (by omega), ?_,
      checkPrologue_returns text hall p hp⟩
    obtain ⟨r, _, hr, _⟩ := decoded_at text hall p.length hp
    exact ⟨r, hr⟩
  · obtain ⟨first, _, hfirst, _⟩ := decoded_at text hall 0 hpos
    exact ⟨first, hfirst⟩
  · intro p rest hp
    have hge : p.length ≥ text.length := hp
    simp only [scanPrologues, hge, if_true]
  · intro dbp hdis
    have hlen : ¬ text.length ≤ 0 := by omega
    simp only [FirstPCAfterPrologue, hdis, hlen, if_false]
    exact scanPrologues_returns text fn sameline hne hall prologues

/-- A use of C19: the six-instruction body made of the prologue alone is
scanned without a panic, the signature being skipped. -/
theorem scanner_in_bounds_witness :
    ∃ res, FirstPCAfterPrologue (processOf ((prologueBody 7).take 6)) exampleFunc true
      = Outcome.ret res :=
  (scanner_in_bounds ((prologueBody 7).take 6) exampleFunc true (by decide)
    (by decide)).2.2.2.2 (processOf ((prologueBody 7).take 6)) rfl

end Proc
